import Mathlib

/-!
Shallow embedding of `src/app.py` (a single-file Streamlit portfolio tracker).

Numbers: Python floats are modelled as `ℚ`.  Dates (`datetime.date`) are
modelled as year/month/day triples of integers; `month.replace(day=1)` becomes
`Date.replaceDayOne`.  Pandas DataFrames are modelled as lists of records;
`df.loc[mask, cols] = vals` becomes a `List.map` that overwrites matching rows,
`pd.concat([df, row])` becomes list append, `df.sort_values("month")` becomes
`List.mergeSort` (with the keys unique — the regime every claim quantifies
over — any comparison sort produces the same list, so the choice of algorithm
is immaterial), and `df[df["ticker"] != t]` becomes `List.filter`.

The yfinance provider is modelled as an environment value (`Provider`), each
provider access being either a returned value or a raised exception (`Res`);
Python values that can appear in a numeric slot are `PyVal` (a float-convertible
number, Python `None`, or a value on which `float(...)` raises).
-/

open scoped List

namespace PortfolioApp

/-- A `datetime.date`: year, month and day. -/
structure Date where
  year : Int
  month : Int
  day : Int
deriving DecidableEq, Repr

/-- Python `d.replace(day=1)`: first day of the month of `d`. -/
def Date.replaceDayOne (d : Date) : Date :=
  { d with day := 1 }

/-- Chronological comparison of dates (the order `sort_values("month")` uses). -/
def Date.ble (a b : Date) : Bool :=
  if a.year < b.year then true
  else if b.year < a.year then false
  else if a.month < b.month then true
  else if b.month < a.month then false
  else decide (a.day ≤ b.day)

/-- A row of `data/balances.csv` after normalisation (lines 111, 119-121). -/
structure BalanceRecord where
  month : Date
  balance : ℚ
  contribution : ℚ
  note : String
deriving DecidableEq, Repr

/-- A row of `data/holdings.csv` after normalisation (lines 112, 124-126). -/
structure HoldingRecord where
  ticker : String
  shares : ℚ
  cost_basis : ℚ
  note : String
deriving DecidableEq, Repr

/-- Comparison used by `balances.sort_values("month")`. -/
def balLE (a b : BalanceRecord) : Bool :=
  Date.ble a.month b.month

/-- Python `s.upper()` (ASCII view): uppercase every character. -/
def pyUpper (s : String) : String :=
  ⟨s.data.map Char.toUpper⟩

/-- Python `s.strip()`: drop whitespace from both ends. -/
def pyStrip (s : String) : String :=
  ⟨(((s.data.dropWhile Char.isWhitespace).reverse.dropWhile
      Char.isWhitespace).reverse)⟩

/-- Month keys of the balances table. -/
def balKeys (l : List BalanceRecord) : List Date :=
  l.map (fun r => r.month)

/-- Ticker keys of the holdings table. -/
def hldKeys (l : List HoldingRecord) : List String :=
  l.map (fun r => r.ticker)

/-- Row-wise effect of line 165,
`balances.loc[balances["month"] == m1, ["balance", "contribution", "note"]] = vals`:
a row with month `m1` has its non-key fields overwritten, any other row is
left alone. -/
def overwriteBal (m1 : Date) (b c : ℚ) (n : String) (r : BalanceRecord) :
    BalanceRecord :=
  if r.month = m1 then { r with balance := b, contribution := c, note := n }
  else r

/-- Lines 163-171: the Save/Update Month upsert.  If a row with month `m1`
exists, the `.loc` assignment overwrites the non-key fields of every matching
row; otherwise the new row is appended by `pd.concat`.  Either way the table
is then sorted by month. -/
def upsertBalance (balances : List BalanceRecord) (m1 : Date)
    (balance contribution : ℚ) (note : String) : List BalanceRecord :=
  (if balances.any (fun r => r.month == m1) then
      balances.map (overwriteBal m1 balance contribution note)
    else
      balances ++ [{ month := m1, balance := balance,
                     contribution := contribution, note := note }]).mergeSort balLE

/-- Row-wise effect of line 200, overwriting the non-key fields of a holding
whose ticker matches. -/
def overwriteHld (tkr : String) (sh cb : ℚ) (nt : String) (r : HoldingRecord) :
    HoldingRecord :=
  if r.ticker = tkr then { r with shares := sh, cost_basis := cb, note := nt }
  else r

/-- Lines 198-203: the add_holding upsert.  The handler runs only under
`if submitted and tkr:`, so an empty ticker is a no-op.  A row with the same
ticker is overwritten in place, otherwise the new row is appended.  No sort. -/
def upsertHolding (holdings : List HoldingRecord) (tkr : String)
    (sh cb : ℚ) (nt : String) : List HoldingRecord :=
  if tkr = "" then holdings
  else if holdings.any (fun r => r.ticker == tkr) then
    holdings.map (overwriteHld tkr sh cb nt)
  else holdings ++ [{ ticker := tkr, shares := sh, cost_basis := cb, note := nt }]

/-- Lines 251-252: deleting a holding keeps the rows whose ticker differs
(`holdings[holdings["ticker"] != del_t]`); the button only fires with a
non-empty selection (`... and del_t`). -/
def deleteHolding (holdings : List HoldingRecord) (del_t : String) :
    List HoldingRecord :=
  if del_t = "" then holdings
  else holdings.filter (fun r => r.ticker != del_t)

/-! ## The yfinance provider model and `fetch_quote` / `fetch_dividends` -/

/-- Outcome of one provider access: a value, or a raised exception. -/
inductive Res (α : Type) where
  | ok (a : α)
  | exn
deriving DecidableEq, Repr

/-- A Python value sitting in a numeric slot of a provider response:
a float-convertible number, Python `None`, or a value `float(...)` rejects. -/
inductive PyVal where
  | num (q : ℚ)
  | null
  | bad
deriving DecidableEq, Repr

/-- Python `float(v)`: succeeds on a number, raises on `None` or junk. -/
def pyFloat (v : PyVal) : Res ℚ :=
  match v with
  | .num q => .ok q
  | .null => .exn
  | .bad => .exn

/-- The `fast_info` object of a ticker.  `lastPriceAttr` is the attribute
`last_price`: `.ok (some v)` means the attribute exists with value `v`
(so `hasattr` is true), `.ok none` means it is absent (`hasattr` false, via
`AttributeError`), `.exn` means reading it raises a non-`AttributeError`
exception (which `hasattr` does not swallow).  The two dict keys model
`fi.get("lastPrice", fi.get("last_price"))`. -/
structure FastInfo where
  lastPriceAttr : Res (Option PyVal)
  isDict : Bool
  lastPriceCamel : Option PyVal
  lastPriceSnake : Option PyVal
deriving DecidableEq, Repr

/-- The `t.info` payload, restricted to the three keys the code reads;
`none` means the key is absent. -/
structure InfoDict where
  regularMarketPrice : Option PyVal
  currentPrice : Option PyVal
  previousClose : Option PyVal
deriving DecidableEq, Repr

/-- Behaviour of the provider for one ticker: whether `yf.Ticker` raises, the
`fast_info` access, the `Close` column of `t.history(period="1d")`, the
`t.info` access (absent or falsy `info` is the dict with all keys absent),
and the `t.dividends` series as (date, amount) pairs. -/
structure Provider where
  tickerRaises : Bool
  fastInfo : Res (Option FastInfo)
  history : Res (List PyVal)
  info : Res InfoDict
  dividends : Res (Option (List (Int × ℚ)))
deriving DecidableEq, Repr

/-- Lines 78-79, the dict-like arm of step 1: if `fi` is a dict holding one of
the two keys, `float(fi.get("lastPrice", fi.get("last_price")))` is returned;
`float` raising (value `None` or junk) is caught by the inner `except` and the
code falls through to step 2 (`none`). -/
def fastDictYield (fi : FastInfo) : Option ℚ :=
  if fi.isDict ∧ (fi.lastPriceCamel.isSome ∨ fi.lastPriceSnake.isSome) then
    match pyFloat (fi.lastPriceCamel.getD (fi.lastPriceSnake.getD .null)) with
    | .ok q => some q
    | .exn => none
  else none

/-- Lines 70-81, step 1 of `fetch_quote` (the inner `try`): the result taken
from `fast_info`, with `none` meaning "fall through to step 2".  An exception
anywhere in this step is caught by the inner `except` and yields `none`;
in particular `float(fi.last_price)` raising skips the dict-like arm. -/
def fastYield (rfi : Res (Option FastInfo)) : Option ℚ :=
  match rfi with
  | .exn => none
  | .ok none => none
  | .ok (some fi) =>
    match fi.lastPriceAttr with
    | .exn => none
    | .ok (some v) =>
      match v with
      | .num q => some q
      | .bad => none
      | .null => fastDictYield fi
    | .ok none => fastDictYield fi

/-- Lines 87-93, step 3: the first key that is present with a non-`None` value
is converted with `float`; if that conversion raises, the outer `except`
returns `None` without trying the remaining keys. -/
def infoYield (i : InfoDict) : Option ℚ :=
  match i.regularMarketPrice with
  | some (.num q) => some q
  | some .bad => none
  | _ =>
    match i.currentPrice with
    | some (.num q) => some q
    | some .bad => none
    | _ =>
      match i.previousClose with
      | some (.num q) => some q
      | some .bad => none
      | _ => none

/-- Lines 63-93: `fetch_quote`.  `yf = none` models the module-level
`yf is None` guard.  The outer `try` wraps `yf.Ticker`, the history step and
the info step: an exception there returns `None` directly.  Step 1 has its own
inner `try` whose failure falls through.  Step 3 runs only when the history
call returned an empty frame. -/
def fetch_quote (yf : Option Provider) : Option ℚ :=
  match yf with
  | none => none
  | some p =>
    if p.tickerRaises then none
    else
      match fastYield p.fastInfo with
      | some q => some q
      | none =>
        match p.history with
        | .exn => none
        | .ok closes =>
          if closes.isEmpty then
            match p.info with
            | .exn => none
            | .ok i => infoYield i
          else
            match closes.getLast? with
            | some v =>
              match pyFloat v with
              | .ok q => some q
              | .exn => none
            | none => none

/-- Lines 95-108: `fetch_dividends`.  Everything is wrapped in one `try`; a
raised exception, a `None` series or an empty series all give the empty table,
otherwise the (date, amount) pairs are returned in the series order. -/
def fetch_dividends (yf : Option Provider) : List (Int × ℚ) :=
  match yf with
  | none => []
  | some p =>
    if p.tickerRaises then []
    else
      match p.dividends with
      | .exn => []
      | .ok none => []
      | .ok (some l) => if l.length = 0 then [] else l

/-! ## Rounding and derived display columns -/

/-- Round-half-to-even to an integer (the rounding `numpy`/pandas `.round`
uses). -/
def roundHalfEven (q : ℚ) : Int :=
  if q - ⌊q⌋ < 1/2 then ⌊q⌋
  else if (1 : ℚ)/2 < q - ⌊q⌋ then ⌊q⌋ + 1
  else if ⌊q⌋ % 2 = 0 then ⌊q⌋ else ⌊q⌋ + 1

/-- Pandas `.round(2)`: round to two decimal places, ties to even. -/
def round2 (q : ℚ) : ℚ :=
  (roundHalfEven (q * 100) : ℚ) / 100

/-- A row of the holdings display frame `hd` (lines 214-217), carrying the
derived columns next to the persisted ones. -/
structure DisplayRow where
  ticker : String
  shares : ℚ
  cost_basis : ℚ
  note : String
  last_price : Option ℚ
  market_value : ℚ
  unrealized_pnl : ℚ
deriving DecidableEq, Repr

/-- Lines 215-217 for one row: `last_price` from the quote map,
`market_value = (last_price.fillna(0.0) * shares).round(2)` and
`unrealized_pnl = ((last_price.fillna(0.0) - cost_basis) * shares).round(2)`. -/
def dispRow (quote : String → Option ℚ) (r : HoldingRecord) : DisplayRow :=
  let lp := quote r.ticker
  { ticker := r.ticker, shares := r.shares, cost_basis := r.cost_basis,
    note := r.note, last_price := lp,
    market_value := round2 ((lp.getD 0) * r.shares),
    unrealized_pnl := round2 (((lp.getD 0) - r.cost_basis) * r.shares) }

/-- Lines 214-217: the displayed holdings frame. -/
def holdingsDisplay (holdings : List HoldingRecord)
    (quote : String → Option ℚ) : List DisplayRow :=
  holdings.map (dispRow quote)

/-- Line 220: `total_val = float(hd["market_value"].sum())`. -/
def totalMarketValue (holdings : List HoldingRecord)
    (quote : String → Option ℚ) : ℚ :=
  ((holdingsDisplay holdings quote).map (fun d => d.market_value)).sum

/-- Lines 154-161: the sync loop of the Save/Update Month handler.  Rows with
a blank (stripped) ticker or non-positive shares are skipped; a `None` quote
contributes nothing; otherwise `total += float(px) * sh`. -/
def syncCheckboxTotal (holdings : List HoldingRecord)
    (quote : String → Option ℚ) : ℚ :=
  holdings.foldl
    (fun total r =>
      let tkr := pyStrip r.ticker
      let sh := r.shares
      if tkr ≠ "" ∧ sh > 0 then
        match quote tkr with
        | some px => total + px * sh
        | none => total
      else total)
    0

/-- Lines 152-172: the whole Save/Update Month handler.  With the sync box
ticked and a non-empty holdings table the entered balance is replaced by the
holdings total; the record is then upserted under `month.replace(day=1)`. -/
def saveUpdateMonth (balances : List BalanceRecord)
    (holdings : List HoldingRecord) (sync : Bool) (month : Date)
    (balanceInput contrib : ℚ) (note : String)
    (quote : String → Option ℚ) : List BalanceRecord :=
  let balance :=
    if sync ∧ holdings ≠ [] then syncCheckboxTotal holdings quote
    else balanceInput
  upsertBalance balances month.replaceDayOne balance contrib note

/-- Row-wise effect of line 226, `balances.loc[mask, "balance"] = total_val`:
only the `balance` column of a matching row changes. -/
def overwriteBalanceOnly (m1 : Date) (v : ℚ) (r : BalanceRecord) :
    BalanceRecord :=
  if r.month = m1 then { r with balance := v } else r

/-- Lines 223-232: the "Use Total Market Value as This Month's Balance"
button.  Under the current month's first day, an existing row has only its
`balance` column overwritten; otherwise a fresh row with contribution 0 and a
fixed note is appended.  The table is then sorted by month. -/
def useTotalButton (balances : List BalanceRecord) (today : Date)
    (total_val : ℚ) : List BalanceRecord :=
  (if balances.any (fun r => r.month == today.replaceDayOne) then
      balances.map (overwriteBalanceOnly today.replaceDayOne total_val)
    else
      balances ++ [{ month := today.replaceDayOne, balance := total_val,
                     contribution := 0,
                     note := "Synced from holdings" }]).mergeSort balLE

/-! ## CSV persistence: `save_csv`, `load_csv` and the normalisation block

A persisted cell is modelled by what `pd.read_csv` recovers from it: a numeric
cell (a numeric literal in the file), a text cell, or a date cell (the ISO
string `df.to_csv` writes for a `datetime.date`, which `pd.to_datetime`
parses back to the same date).  A raw row carries `Option Cell` per column,
`none` modelling a column missing from the file, which `load_csv` backfills
with the table's default (lines 46-49, 111-112). -/

/-- A cell as recovered by `pd.read_csv`. -/
inductive Cell where
  | num (q : ℚ)
  | text (s : String)
  | date (d : Date)
deriving DecidableEq, Repr

/-- A raw row of `data/balances.csv`; `none` = column absent from the file. -/
structure RawBalRow where
  month : Option Cell
  balance : Option Cell
  contribution : Option Cell
  note : Option Cell
deriving DecidableEq, Repr

/-- A raw row of `data/holdings.csv`. -/
structure RawHldRow where
  ticker : Option Cell
  shares : Option Cell
  cost_basis : Option Cell
  note : Option Cell
deriving DecidableEq, Repr

/-- A balances row after `load_csv` backfilled missing columns with the
defaults of `bal_required` (lines 46-49 with line 111). -/
structure BalRowCells where
  month : Cell
  balance : Cell
  contribution : Cell
  note : Cell
deriving DecidableEq, Repr

/-- A holdings row after `load_csv` backfilled with `hld_required` defaults. -/
structure HldRowCells where
  ticker : Cell
  shares : Cell
  cost_basis : Cell
  note : Cell
deriving DecidableEq, Repr

/-- Lines 40-50 for one balances row, with defaults
`{"month": "", "balance": 0.0, "contribution": 0.0, "note": ""}`. -/
def load_csv_bal (r : RawBalRow) : BalRowCells :=
  { month := r.month.getD (.text ""), balance := r.balance.getD (.num 0),
    contribution := r.contribution.getD (.num 0), note := r.note.getD (.text "") }

/-- Lines 40-50 for one holdings row, with defaults
`{"ticker": "", "shares": 0.0, "cost_basis": 0.0, "note": ""}`. -/
def load_csv_hld (r : RawHldRow) : HldRowCells :=
  { ticker := r.ticker.getD (.text ""), shares := r.shares.getD (.num 0),
    cost_basis := r.cost_basis.getD (.num 0), note := r.note.getD (.text "") }

/-- `pd.to_numeric(col, errors="coerce").fillna(0.0)` on one cell: a number
stays, anything non-numeric coerces to `NaN` and is filled with `0.0`. -/
def toNumericFill0 (c : Cell) : ℚ :=
  match c with
  | .num q => q
  | _ => 0

/-- `pd.to_datetime(col, errors="coerce").dt.date` on one cell: a date cell
parses back to its date, anything unparseable coerces to `NaT` (`none`). -/
def toDateCoerce (c : Cell) : Option Date :=
  match c with
  | .date d => some d
  | _ => none

/-- Python `str(...)` of a cell, for `astype(str)` on the ticker column. -/
def cellToStr (c : Cell) : String :=
  match c with
  | .text s => s
  | .num q => toString q
  | .date d => toString d.year ++ "-" ++ toString d.month ++ "-" ++ toString d.day

/-- A balances row after the normalisation block (lines 118-121): the month
may be `NaT`, the numeric columns are rational, the note column is untouched. -/
structure NormBalRow where
  month : Option Date
  balance : ℚ
  contribution : ℚ
  note : Cell
deriving DecidableEq, Repr

/-- A holdings row after the normalisation block (lines 123-126). -/
structure NormHldRow where
  ticker : String
  shares : ℚ
  cost_basis : ℚ
  note : Cell
deriving DecidableEq, Repr

/-- Lines 119-121 on one row. -/
def normalizeBalRow (c : BalRowCells) : NormBalRow :=
  { month := toDateCoerce c.month, balance := toNumericFill0 c.balance,
    contribution := toNumericFill0 c.contribution, note := c.note }

/-- Lines 124-126 on one row: `astype(str).str.upper().str.strip()` on the
ticker, numeric coercion on shares and cost basis. -/
def normalizeHldRow (c : HldRowCells) : NormHldRow :=
  { ticker := pyStrip (pyUpper (cellToStr c.ticker)),
    shares := toNumericFill0 c.shares,
    cost_basis := toNumericFill0 c.cost_basis, note := c.note }

/-- Loading the balances table: `load_csv` then the normalisation block.
With no rows the normalisation block is skipped (line 118), which coincides
with mapping over the empty list. -/
def loadBalances (rows : List RawBalRow) : List NormBalRow :=
  rows.map (fun r => normalizeBalRow (load_csv_bal r))

/-- Loading the holdings table: `load_csv` then the normalisation block. -/
def loadHoldings (rows : List RawHldRow) : List NormHldRow :=
  rows.map (fun r => normalizeHldRow (load_csv_hld r))

/-- `save_csv` on one normalised balance record: `df.to_csv` writes every
column; the month (a `datetime.date`) prints as its ISO string, the numeric
columns as numeric literals, the note as text. -/
def saveBalRow (r : BalanceRecord) : RawBalRow :=
  { month := some (.date r.month), balance := some (.num r.balance),
    contribution := some (.num r.contribution), note := some (.text r.note) }

/-- Lines 52-54 for the balances table. -/
def saveBalances (recs : List BalanceRecord) : List RawBalRow :=
  recs.map saveBalRow

/-- `save_csv` on one holding record. -/
def saveHldRow (r : HoldingRecord) : RawHldRow :=
  { ticker := some (.text r.ticker), shares := some (.num r.shares),
    cost_basis := some (.num r.cost_basis), note := some (.text r.note) }

/-- Lines 52-54 for the holdings table. -/
def saveHoldings (recs : List HoldingRecord) : List RawHldRow :=
  recs.map saveHldRow

/-! ## Derived definitions used by the claims -/

/-- A sequence of Save/Update Month upserts (month key, balance, contribution,
note), applied left to right. -/
def applyBalOps (l : List BalanceRecord) (ops : List (Date × ℚ × ℚ × String)) :
    List BalanceRecord :=
  ops.foldl (fun s o => upsertBalance s o.1 o.2.1 o.2.2.1 o.2.2.2) l

/-- A sequence of add_holding upserts (ticker, shares, cost basis, note),
applied left to right. -/
def applyHldOps (l : List HoldingRecord) (ops : List (String × ℚ × ℚ × String)) :
    List HoldingRecord :=
  ops.foldl (fun s o => upsertHolding s o.1 o.2.1 o.2.2.1 o.2.2.2) l

/-- What one holdings row adds to the sync loop's accumulator
(lines 156-161). -/
def syncRowContribution (quote : String → Option ℚ) (r : HoldingRecord) : ℚ :=
  if pyStrip r.ticker ≠ "" ∧ r.shares > 0 then
    match quote (pyStrip r.ticker) with
    | some px => px * r.shares
    | none => 0
  else 0

/-- Drop a `None`-valued key (the `info[k] is not None` test). -/
def keyNonNull (o : Option PyVal) : Option PyVal :=
  match o with
  | some .null => none
  | some v => some v
  | none => none

/-- The first key among `regularMarketPrice`, `currentPrice`, `previousClose`
that is present with a non-`None` value, as the spec's "first non-null wins"
reads. -/
def firstInfoNonNull (i : InfoDict) : Option PyVal :=
  (keyNonNull i.regularMarketPrice).orElse fun _ =>
    (keyNonNull i.currentPrice).orElse fun _ =>
      keyNonNull i.previousClose

/-- The history source failed (raised) or yielded nothing (empty window). -/
def histFailedOrEmpty (p : Provider) : Prop :=
  p.history = .exn ∨ p.history = .ok []

/-- No source of the provider yields a usable price: the fast-info step falls
through, the history window raises or has no float-convertible last close, and
the info payload raises or has no float-convertible value under any of the
three keys. -/
def noUsableQuote (p : Provider) : Prop :=
  fastYield p.fastInfo = none ∧
  (p.history = .exn ∨
    ∃ closes, p.history = .ok closes ∧ ∀ q, closes.getLast? ≠ some (.num q)) ∧
  (p.info = .exn ∨
    ∃ i, p.info = .ok i ∧
      (∀ q, i.regularMarketPrice ≠ some (.num q)) ∧
      (∀ q, i.currentPrice ≠ some (.num q)) ∧
      (∀ q, i.previousClose ≠ some (.num q)))

/-- Claim C6 as stated: the sources are tried in order and the first success
wins, a later source being consulted whenever every earlier source failed
(raised) or yielded nothing.  In particular a price is recovered from the
info payload whenever the fast-info step yielded nothing and the history
source either raised or was empty. -/
def claimC6Statement : Prop :=
  ∀ p : Provider, p.tickerRaises = false →
    (∀ q, fastYield p.fastInfo = some q → fetch_quote (some p) = some q) ∧
    (fastYield p.fastInfo = none →
      ∀ closes q, p.history = .ok closes → closes.getLast? = some (.num q) →
        fetch_quote (some p) = some q) ∧
    (fastYield p.fastInfo = none → histFailedOrEmpty p →
      ∀ i q, p.info = .ok i → firstInfoNonNull i = some (.num q) →
        fetch_quote (some p) = some q)

/-- A provider refuting claim C6: the fast-info attribute is absent, the
history call raises, and the info payload has a perfectly good
`regularMarketPrice`. -/
def cexProvider : Provider :=
  { tickerRaises := false, fastInfo := .ok none, history := .exn,
    info := .ok { regularMarketPrice := some (.num 100), currentPrice := none,
                  previousClose := none },
    dividends := .ok none }

/-- Claim C7 as stated: with an available resolved price the derived columns
are the exact products `last_price * shares` and
`(last_price - cost_basis) * shares`. -/
def claimC7Statement : Prop :=
  ∀ (quote : String → Option ℚ) (r : HoldingRecord) (q : ℚ),
    quote r.ticker = some q →
    (dispRow quote r).market_value = q * r.shares ∧
    (dispRow quote r).unrealized_pnl = (q - r.cost_basis) * r.shares

/-- Two demo holdings for the sync scenario: 5 shares of AAA, 2 of BBB. -/
def demoHoldings : List HoldingRecord :=
  [{ ticker := "AAA", shares := 5, cost_basis := 0, note := "" },
   { ticker := "BBB", shares := 2, cost_basis := 0, note := "" }]

/-- A quote environment that prices AAA at 50 and has nothing else. -/
def demoQuote : String → Option ℚ :=
  fun t => if t = "AAA" then some 50 else none

/-- A fixed current date for the sync scenario. -/
def demoToday : Date :=
  { year := 2026, month := 10, day := 12 }

/-! # Theorems -/

set_option linter.unnecessarySeqFocus false in
theorem Date.ble_trans (a b c : Date) (hab : Date.ble a b) (hbc : Date.ble b c) :
    Date.ble a c := by
  simp only [Date.ble] at *
  split_ifs at * <;> simp_all <;> omega

set_option linter.unnecessarySeqFocus false in
theorem Date.ble_total (a b : Date) : Date.ble a b || Date.ble b a := by
  simp only [Date.ble]
  split_ifs <;> simp_all <;> omega

theorem balLE_trans (a b c : BalanceRecord) (hab : balLE a b) (hbc : balLE b c) :
    balLE a c :=
  Date.ble_trans a.month b.month c.month hab hbc

theorem balLE_total (a b : BalanceRecord) : balLE a b || balLE b a :=
  Date.ble_total a.month b.month

theorem balAny_iff (l : List BalanceRecord) (m1 : Date) :
    (l.any fun r => r.month == m1) = true ↔ m1 ∈ balKeys l := by
  rw [List.any_eq_true]
  constructor
  · rintro ⟨r, hr, hb⟩
    exact List.mem_map.mpr ⟨r, hr, eq_of_beq hb⟩
  · intro hm
    obtain ⟨r, hr, hb⟩ := List.mem_map.mp hm
    exact ⟨r, hr, beq_iff_eq.mpr hb⟩

theorem hldAny_iff (l : List HoldingRecord) (t : String) :
    (l.any fun r => r.ticker == t) = true ↔ t ∈ hldKeys l := by
  rw [List.any_eq_true]
  constructor
  · rintro ⟨r, hr, hb⟩
    exact List.mem_map.mpr ⟨r, hr, eq_of_beq hb⟩
  · intro hm
    obtain ⟨r, hr, hb⟩ := List.mem_map.mp hm
    exact ⟨r, hr, beq_iff_eq.mpr hb⟩

theorem overwriteBal_month (m1 : Date) (b c : ℚ) (n : String)
    (r : BalanceRecord) : (overwriteBal m1 b c n r).month = r.month := by
  unfold overwriteBal; split <;> rfl

theorem overwriteHld_ticker (t : String) (sh cb : ℚ) (nt : String)
    (r : HoldingRecord) : (overwriteHld t sh cb nt r).ticker = r.ticker := by
  unfold overwriteHld; split <;> rfl

theorem overwriteBalanceOnly_frame (m1 : Date) (v : ℚ) (r : BalanceRecord) :
    (overwriteBalanceOnly m1 v r).month = r.month ∧
    (overwriteBalanceOnly m1 v r).contribution = r.contribution ∧
    (overwriteBalanceOnly m1 v r).note = r.note := by
  unfold overwriteBalanceOnly; split <;> exact ⟨rfl, rfl, rfl⟩

theorem upsertBalance_of_mem (l : List BalanceRecord) (m1 : Date) (b c : ℚ)
    (n : String) (h : m1 ∈ balKeys l) :
    upsertBalance l m1 b c n =
      (l.map (overwriteBal m1 b c n)).mergeSort balLE := by
  unfold upsertBalance
  rw [if_pos ((balAny_iff l m1).mpr h)]

theorem upsertBalance_of_not_mem (l : List BalanceRecord) (m1 : Date)
    (b c : ℚ) (n : String) (h : m1 ∉ balKeys l) :
    upsertBalance l m1 b c n =
      (l ++ [({ month := m1, balance := b, contribution := c,
                note := n } : BalanceRecord)]).mergeSort balLE := by
  unfold upsertBalance
  rw [if_neg (fun hc => h ((balAny_iff l m1).mp hc))]

theorem upsertBalance_perm_overwrite (l : List BalanceRecord) (m1 : Date)
    (b c : ℚ) (n : String) (h : m1 ∈ balKeys l) :
    upsertBalance l m1 b c n ~ l.map (overwriteBal m1 b c n) := by
  rw [upsertBalance_of_mem l m1 b c n h]
  exact List.mergeSort_perm _ _

theorem upsertBalance_perm_append (l : List BalanceRecord) (m1 : Date)
    (b c : ℚ) (n : String) (h : m1 ∉ balKeys l) :
    upsertBalance l m1 b c n ~
      l ++ [({ month := m1, balance := b, contribution := c,
               note := n } : BalanceRecord)] := by
  rw [upsertBalance_of_not_mem l m1 b c n h]
  exact List.mergeSort_perm _ _

theorem upsertHolding_of_mem (l : List HoldingRecord) (t : String)
    (sh cb : ℚ) (nt : String) (ht : t ≠ "") (h : t ∈ hldKeys l) :
    upsertHolding l t sh cb nt = l.map (overwriteHld t sh cb nt) := by
  unfold upsertHolding
  rw [if_neg ht, if_pos ((hldAny_iff l t).mpr h)]

theorem upsertHolding_of_not_mem (l : List HoldingRecord) (t : String)
    (sh cb : ℚ) (nt : String) (ht : t ≠ "") (h : t ∉ hldKeys l) :
    upsertHolding l t sh cb nt =
      l ++ [({ ticker := t, shares := sh, cost_basis := cb,
               note := nt } : HoldingRecord)] := by
  unfold upsertHolding
  rw [if_neg ht, if_neg (fun hc => h ((hldAny_iff l t).mp hc))]

theorem balKeys_map_overwrite (l : List BalanceRecord) (m1 : Date) (b c : ℚ)
    (n : String) : balKeys (l.map (overwriteBal m1 b c n)) = balKeys l := by
  unfold balKeys
  rw [List.map_map]
  exact List.map_congr_left fun r _ => overwriteBal_month m1 b c n r

theorem hldKeys_map_overwrite (l : List HoldingRecord) (t : String)
    (sh cb : ℚ) (nt : String) :
    hldKeys (l.map (overwriteHld t sh cb nt)) = hldKeys l := by
  unfold hldKeys
  rw [List.map_map]
  exact List.map_congr_left fun r _ => overwriteHld_ticker t sh cb nt r

theorem upsertBalance_keys_nodup (l : List BalanceRecord) (m1 : Date)
    (b c : ℚ) (n : String) (h : (balKeys l).Nodup) :
    (balKeys (upsertBalance l m1 b c n)).Nodup := by
  by_cases hm : m1 ∈ balKeys l
  · have hperm := (upsertBalance_perm_overwrite l m1 b c n hm).map
      (fun r => r.month)
    have heq := balKeys_map_overwrite l m1 b c n
    unfold balKeys at *
    rw [List.Perm.nodup_iff hperm, heq]
    exact h
  · have hperm := (upsertBalance_perm_append l m1 b c n hm).map
      (fun r => r.month)
    unfold balKeys at *
    rw [List.Perm.nodup_iff hperm, List.map_append]
    refine List.Nodup.append h (by simp) ?_
    intro x hx hx'
    simp only [List.map_cons, List.map_nil, List.mem_singleton] at hx'
    subst hx'
    exact hm hx

theorem upsertHolding_keys_nodup (l : List HoldingRecord) (t : String)
    (sh cb : ℚ) (nt : String) (h : (hldKeys l).Nodup) :
    (hldKeys (upsertHolding l t sh cb nt)).Nodup := by
  by_cases ht : t = ""
  · unfold upsertHolding
    rw [if_pos ht]
    exact h
  by_cases hm : t ∈ hldKeys l
  · rw [upsertHolding_of_mem l t sh cb nt ht hm, hldKeys_map_overwrite]
    exact h
  · rw [upsertHolding_of_not_mem l t sh cb nt ht hm]
    unfold hldKeys at *
    rw [List.map_append]
    refine List.Nodup.append h (by simp) ?_
    intro x hx hx'
    simp only [List.map_cons, List.map_nil, List.mem_singleton] at hx'
    subst hx'
    exact hm hx

theorem applyBalOps_keys_nodup (ops : List (Date × ℚ × ℚ × String)) :
    ∀ l : List BalanceRecord, (balKeys l).Nodup →
      (balKeys (applyBalOps l ops)).Nodup := by
  induction ops with
  | nil => intro l h; exact h
  | cons o rest ih =>
    intro l h
    exact ih _ (upsertBalance_keys_nodup l o.1 o.2.1 o.2.2.1 o.2.2.2 h)

theorem applyHldOps_keys_nodup (ops : List (String × ℚ × ℚ × String)) :
    ∀ l : List HoldingRecord, (hldKeys l).Nodup →
      (hldKeys (applyHldOps l ops)).Nodup := by
  induction ops with
  | nil => intro l h; exact h
  | cons o rest ih =>
    intro l h
    exact ih _ (upsertHolding_keys_nodup l o.1 o.2.1 o.2.2.1 o.2.2.2 h)

theorem upsertBalance_rows_at_key (l : List BalanceRecord) (m1 : Date)
    (b c : ℚ) (n : String) :
    ∀ r ∈ upsertBalance l m1 b c n, r.month = m1 →
      r = { month := m1, balance := b, contribution := c, note := n } := by
  intro r hr hm
  by_cases hmem : m1 ∈ balKeys l
  · rw [upsertBalance_of_mem l m1 b c n hmem] at hr
    have hr' := List.mem_mergeSort.mp hr
    obtain ⟨r', hr'l, hrw⟩ := List.mem_map.mp hr'
    by_cases h' : r'.month = m1
    · rw [← hrw]
      unfold overwriteBal
      rw [if_pos h']
      cases r'
      simp_all
    · exfalso
      rw [← hrw] at hm
      unfold overwriteBal at hm
      rw [if_neg h'] at hm
      exact h' hm
  · rw [upsertBalance_of_not_mem l m1 b c n hmem] at hr
    have hr' := List.mem_mergeSort.mp hr
    rcases List.mem_append.mp hr' with hl | hnew
    · exact absurd (List.mem_map.mpr ⟨r, hl, hm⟩) hmem
    · simpa using hnew

theorem upsertBalance_exists_key (l : List BalanceRecord) (m1 : Date)
    (b c : ℚ) (n : String) :
    ∃ r ∈ upsertBalance l m1 b c n, r.month = m1 := by
  by_cases hmem : m1 ∈ balKeys l
  · rw [upsertBalance_of_mem l m1 b c n hmem]
    obtain ⟨r, hr, hm⟩ := List.mem_map.mp hmem
    refine ⟨overwriteBal m1 b c n r,
      List.mem_mergeSort.mpr (List.mem_map.mpr ⟨r, hr, rfl⟩), ?_⟩
    rw [overwriteBal_month]
    exact hm
  · rw [upsertBalance_of_not_mem l m1 b c n hmem]
    exact ⟨_, List.mem_mergeSort.mpr
      (List.mem_append_right l (List.mem_singleton_self _)), rfl⟩

theorem useTotalButton_balance_at_key (balances : List BalanceRecord)
    (today : Date) (v : ℚ) :
    ∀ r ∈ useTotalButton balances today v, r.month = today.replaceDayOne →
      r.balance = v := by
  intro r hr hm
  unfold useTotalButton at hr
  have hr' := List.mem_mergeSort.mp hr
  by_cases hany : (balances.any fun x => x.month == today.replaceDayOne) = true
  · rw [if_pos hany] at hr'
    obtain ⟨r', hr'l, hrw⟩ := List.mem_map.mp hr'
    by_cases h' : r'.month = today.replaceDayOne
    · rw [← hrw]
      unfold overwriteBalanceOnly
      rw [if_pos h']
    · exfalso
      rw [← hrw] at hm
      unfold overwriteBalanceOnly at hm
      rw [if_neg h'] at hm
      exact h' hm
  · rw [if_neg hany] at hr'
    rcases List.mem_append.mp hr' with hl | hnew
    · exact absurd ((balAny_iff balances today.replaceDayOne).mpr
        (List.mem_map.mpr ⟨r, hl, hm⟩)) hany
    · rw [List.mem_singleton] at hnew
      subst hnew
      rfl

theorem useTotalButton_exists_key (balances : List BalanceRecord)
    (today : Date) (v : ℚ) :
    ∃ r ∈ useTotalButton balances today v, r.month = today.replaceDayOne := by
  unfold useTotalButton
  by_cases hany : (balances.any fun x => x.month == today.replaceDayOne) = true
  · rw [if_pos hany]
    obtain ⟨r, hr, hb⟩ := List.any_eq_true.mp hany
    refine ⟨overwriteBalanceOnly today.replaceDayOne v r,
      List.mem_mergeSort.mpr (List.mem_map.mpr ⟨r, hr, rfl⟩), ?_⟩
    rw [(overwriteBalanceOnly_frame today.replaceDayOne v r).1]
    exact eq_of_beq hb
  · rw [if_neg hany]
    exact ⟨_, List.mem_mergeSort.mpr
      (List.mem_append_right _ (List.mem_singleton_self _)), rfl⟩

theorem upsertHolding_rows_at_key (l : List HoldingRecord) (t : String)
    (sh cb : ℚ) (nt : String) (ht : t ≠ "") :
    ∀ r ∈ upsertHolding l t sh cb nt, r.ticker = t →
      r = { ticker := t, shares := sh, cost_basis := cb, note := nt } := by
  intro r hr hm
  by_cases hmem : t ∈ hldKeys l
  · rw [upsertHolding_of_mem l t sh cb nt ht hmem] at hr
    obtain ⟨r', hr'l, hrw⟩ := List.mem_map.mp hr
    by_cases h' : r'.ticker = t
    · rw [← hrw]
      unfold overwriteHld
      rw [if_pos h']
      cases r'
      simp_all
    · exfalso
      rw [← hrw] at hm
      unfold overwriteHld at hm
      rw [if_neg h'] at hm
      exact h' hm
  · rw [upsertHolding_of_not_mem l t sh cb nt ht hmem] at hr
    rcases List.mem_append.mp hr with hl | hnew
    · exact absurd (List.mem_map.mpr ⟨r, hl, hm⟩) hmem
    · simpa using hnew

theorem mergeSort_balLE_idem (l : List BalanceRecord) :
    (l.mergeSort balLE).mergeSort balLE = l.mergeSort balLE :=
  List.mergeSort_of_sorted (List.sorted_mergeSort balLE_trans balLE_total l)

theorem upsertBalance_key_mem (l : List BalanceRecord) (m1 : Date) (b c : ℚ)
    (n : String) : m1 ∈ balKeys (upsertBalance l m1 b c n) := by
  obtain ⟨r, hr, hm⟩ := upsertBalance_exists_key l m1 b c n
  exact List.mem_map.mpr ⟨r, hr, hm⟩

theorem upsertBalance_idem (l : List BalanceRecord) (m1 : Date) (b c : ℚ)
    (n : String) :
    upsertBalance (upsertBalance l m1 b c n) m1 b c n =
      upsertBalance l m1 b c n := by
  rw [upsertBalance_of_mem _ m1 b c n (upsertBalance_key_mem l m1 b c n)]
  have hfix : ∀ r ∈ upsertBalance l m1 b c n, overwriteBal m1 b c n r = r := by
    intro r hr
    by_cases hm : r.month = m1
    · have hre := upsertBalance_rows_at_key l m1 b c n r hr hm
      subst hre
      unfold overwriteBal
      rw [if_pos rfl]
    · unfold overwriteBal
      rw [if_neg hm]
  have hmap : (upsertBalance l m1 b c n).map (overwriteBal m1 b c n) =
      upsertBalance l m1 b c n := by
    rw [List.map_congr_left hfix, List.map_id']
  rw [hmap]
  unfold upsertBalance
  exact mergeSort_balLE_idem _

theorem upsertHolding_key_mem (l : List HoldingRecord) (t : String)
    (sh cb : ℚ) (nt : String) (ht : t ≠ "") :
    t ∈ hldKeys (upsertHolding l t sh cb nt) := by
  by_cases hm : t ∈ hldKeys l
  · rw [upsertHolding_of_mem l t sh cb nt ht hm, hldKeys_map_overwrite]
    exact hm
  · rw [upsertHolding_of_not_mem l t sh cb nt ht hm]
    unfold hldKeys
    rw [List.map_append]
    exact List.mem_append_right _ (by simp)

theorem upsertHolding_idem (l : List HoldingRecord) (t : String) (sh cb : ℚ)
    (nt : String) :
    upsertHolding (upsertHolding l t sh cb nt) t sh cb nt =
      upsertHolding l t sh cb nt := by
  by_cases ht : t = ""
  · simp only [upsertHolding, if_pos ht]
  · rw [upsertHolding_of_mem _ t sh cb nt ht
      (upsertHolding_key_mem l t sh cb nt ht)]
    have hfix : ∀ r ∈ upsertHolding l t sh cb nt,
        overwriteHld t sh cb nt r = r := by
      intro r hr
      by_cases hm : r.ticker = t
      · have hre := upsertHolding_rows_at_key l t sh cb nt ht r hr hm
        subst hre
        unfold overwriteHld
        rw [if_pos rfl]
      · unfold overwriteHld
        rw [if_neg hm]
    rw [List.map_congr_left hfix, List.map_id']

/-- C1: starting from a table with at most one record per key, any sequence of
upserts keeps at most one record per key, for both tables; moreover an upsert
on an existing key overwrites that record's non-key fields in place (the
stored rows are exactly the row-wise overwrite, up to the balances re-sort)
and an upsert on a fresh key appends exactly one new record. -/
theorem claim_C1_upserts_preserve_unique_keys :
    (∀ (l : List BalanceRecord) (ops : List (Date × ℚ × ℚ × String)),
       (balKeys l).Nodup → (balKeys (applyBalOps l ops)).Nodup) ∧
    (∀ (l : List HoldingRecord) (ops : List (String × ℚ × ℚ × String)),
       (hldKeys l).Nodup → (hldKeys (applyHldOps l ops)).Nodup) ∧
    (∀ (l : List BalanceRecord) (m1 : Date) (b c : ℚ) (n : String),
       m1 ∈ balKeys l →
       upsertBalance l m1 b c n ~ l.map (overwriteBal m1 b c n)) ∧
    (∀ (l : List BalanceRecord) (m1 : Date) (b c : ℚ) (n : String),
       m1 ∉ balKeys l →
       upsertBalance l m1 b c n ~
         l ++ [({ month := m1, balance := b, contribution := c,
                  note := n } : BalanceRecord)]) ∧
    (∀ (l : List HoldingRecord) (t : String) (sh cb : ℚ) (nt : String),
       t ≠ "" → t ∈ hldKeys l →
       upsertHolding l t sh cb nt = l.map (overwriteHld t sh cb nt)) ∧
    (∀ (l : List HoldingRecord) (t : String) (sh cb : ℚ) (nt : String),
       t ≠ "" → t ∉ hldKeys l →
       upsertHolding l t sh cb nt =
         l ++ [({ ticker := t, shares := sh, cost_basis := cb,
                  note := nt } : HoldingRecord)]) :=
  ⟨fun l ops => applyBalOps_keys_nodup ops l,
   fun l ops => applyHldOps_keys_nodup ops l,
   upsertBalance_perm_overwrite, upsertBalance_perm_append,
   upsertHolding_of_mem, upsertHolding_of_not_mem⟩

theorem claim_C1_witness :
    (balKeys (applyBalOps [⟨⟨2024, 3, 1⟩, 5000, 0, ""⟩]
       [(⟨2024, 3, 1⟩, 5200, 0, ""), (⟨2024, 4, 1⟩, 100, 0, "")])).Nodup ∧
    (hldKeys (applyHldOps [⟨"AAPL", 1, 2, ""⟩]
       [("SPY", 3, 4, ""), ("AAPL", 5, 6, "x")])).Nodup ∧
    (upsertBalance [⟨⟨2024, 3, 1⟩, 5000, 0, ""⟩] ⟨2024, 3, 1⟩ 5200 0 "" ~
       List.map (overwriteBal ⟨2024, 3, 1⟩ 5200 0 "")
         [⟨⟨2024, 3, 1⟩, 5000, 0, ""⟩]) ∧
    (upsertBalance [⟨⟨2024, 3, 1⟩, 5000, 0, ""⟩] ⟨2024, 4, 1⟩ 100 0 "" ~
       [⟨⟨2024, 3, 1⟩, 5000, 0, ""⟩] ++ [⟨⟨2024, 4, 1⟩, 100, 0, ""⟩]) ∧
    (upsertHolding [⟨"AAPL", 1, 2, ""⟩] "AAPL" 5 6 "x" =
       List.map (overwriteHld "AAPL" 5 6 "x") [⟨"AAPL", 1, 2, ""⟩]) ∧
    (upsertHolding [⟨"AAPL", 1, 2, ""⟩] "SPY" 3 4 "" =
       [⟨"AAPL", 1, 2, ""⟩] ++ [⟨"SPY", 3, 4, ""⟩]) :=
  ⟨claim_C1_upserts_preserve_unique_keys.1 _ _ (by decide),
   claim_C1_upserts_preserve_unique_keys.2.1 _ _ (by decide),
   claim_C1_upserts_preserve_unique_keys.2.2.1 _ _ _ _ _ (by decide),
   claim_C1_upserts_preserve_unique_keys.2.2.2.1 _ _ _ _ _ (by decide),
   claim_C1_upserts_preserve_unique_keys.2.2.2.2.1 _ _ _ _ _ (by decide)
     (by decide),
   claim_C1_upserts_preserve_unique_keys.2.2.2.2.2 _ _ _ _ _ (by decide)
     (by decide)⟩

/-- C5: upserting the same key with identical non-key fields twice leaves the
stored table exactly as a single upsert does, for both tables. -/
theorem claim_C5_upsert_idempotent :
    (∀ (l : List BalanceRecord) (m1 : Date) (b c : ℚ) (n : String),
       (balKeys l).Nodup →
       upsertBalance (upsertBalance l m1 b c n) m1 b c n =
         upsertBalance l m1 b c n) ∧
    (∀ (l : List HoldingRecord) (t : String) (sh cb : ℚ) (nt : String),
       (hldKeys l).Nodup →
       upsertHolding (upsertHolding l t sh cb nt) t sh cb nt =
         upsertHolding l t sh cb nt) :=
  ⟨fun l m1 b c n _ => upsertBalance_idem l m1 b c n,
   fun l t sh cb nt _ => upsertHolding_idem l t sh cb nt⟩

theorem claim_C5_witness :
    (upsertBalance
        (upsertBalance [⟨⟨2024, 2, 1⟩, 4800, 0, ""⟩] ⟨2024, 3, 1⟩ 5200 0 "m")
        ⟨2024, 3, 1⟩ 5200 0 "m" =
      upsertBalance [⟨⟨2024, 2, 1⟩, 4800, 0, ""⟩] ⟨2024, 3, 1⟩ 5200 0 "m") ∧
    (upsertHolding (upsertHolding [⟨"SPY", 1, 2, ""⟩] "AAPL" 5 6 "x")
        "AAPL" 5 6 "x" =
      upsertHolding [⟨"SPY", 1, 2, ""⟩] "AAPL" 5 6 "x") :=
  ⟨claim_C5_upsert_idempotent.1 _ _ _ _ _ (by decide),
   claim_C5_upsert_idempotent.2 _ _ _ _ _ (by decide)⟩

/-- C9: deleting a ticker that is not present leaves the stored holdings
exactly as they were. -/
theorem claim_C9_delete_absent_is_noop (holdings : List HoldingRecord)
    (t : String) (h : ∀ r ∈ holdings, r.ticker ≠ t) :
    deleteHolding holdings t = holdings := by
  unfold deleteHolding
  split
  · rfl
  · rw [List.filter_eq_self]
    intro r hr
    simpa [bne_iff_ne] using h r hr

theorem claim_C9_witness :
    deleteHolding
      [{ ticker := "MSFT", shares := 1, cost_basis := 2, note := "" }]
      "AAPL" =
    [{ ticker := "MSFT", shares := 1, cost_basis := 2, note := "" }] :=
  claim_C9_delete_absent_is_noop _ "AAPL" (by decide)

/-- C10: when a record for the current month's first day already exists, the
Holdings-tab sync button rewrites only that record's balance: the stored
table is (up to the re-sort) the row-wise overwrite of the balance column at
that key, the record keeps its contribution and note, every record keyed
elsewhere survives unchanged, and no record is added or dropped. -/
theorem claim_C10_sync_button_frame (balances : List BalanceRecord)
    (today : Date) (total_val : ℚ)
    (h : today.replaceDayOne ∈ balKeys balances) :
    (useTotalButton balances today total_val ~
       balances.map (overwriteBalanceOnly today.replaceDayOne total_val)) ∧
    (∀ r ∈ balances, r.month ≠ today.replaceDayOne →
       r ∈ useTotalButton balances today total_val) ∧
    (∀ r ∈ balances, r.month = today.replaceDayOne →
       ({ r with balance := total_val } : BalanceRecord) ∈
         useTotalButton balances today total_val) ∧
    (useTotalButton balances today total_val).length = balances.length := by
  have hany : (balances.any fun x => x.month == today.replaceDayOne) = true :=
    (balAny_iff balances today.replaceDayOne).mpr h
  have hbody : useTotalButton balances today total_val =
      (balances.map (overwriteBalanceOnly today.replaceDayOne total_val)).mergeSort
        balLE := by
    unfold useTotalButton
    rw [if_pos hany]
  have hperm : useTotalButton balances today total_val ~
      balances.map (overwriteBalanceOnly today.replaceDayOne total_val) := by
    rw [hbody]
    exact List.mergeSort_perm _ _
  refine ⟨hperm, ?_, ?_, ?_⟩
  · intro r hr hne
    rw [hbody]
    apply List.mem_mergeSort.mpr
    apply List.mem_map.mpr
    refine ⟨r, hr, ?_⟩
    unfold overwriteBalanceOnly
    rw [if_neg hne]
  · intro r hr heq
    rw [hbody]
    apply List.mem_mergeSort.mpr
    apply List.mem_map.mpr
    refine ⟨r, hr, ?_⟩
    unfold overwriteBalanceOnly
    rw [if_pos heq]
  · rw [hperm.length_eq]
    exact List.length_map _ _

theorem balRowRoundTrip (r : BalanceRecord) :
    normalizeBalRow (load_csv_bal (saveBalRow r)) =
      { month := some r.month, balance := r.balance,
        contribution := r.contribution, note := .text r.note } := rfl

theorem hldRowRoundTrip (r : HoldingRecord) :
    normalizeHldRow (load_csv_hld (saveHldRow r)) =
      { ticker := pyStrip (pyUpper r.ticker), shares := r.shares,
        cost_basis := r.cost_basis, note := .text r.note } := rfl

/-- C3: reloading a table right after saving it returns records equal, key and
fields alike, to the records saved (months and numeric fields round-trip
exactly; tickers do once they are in the stored, uppercased and stripped,
form); a column missing from the file is backfilled with its documented
default, and a non-numeric value in a numeric column is coerced to the zero
default. -/
theorem claim_C3_load_after_save :
    (∀ recs : List BalanceRecord, (balKeys recs).Nodup →
       loadBalances (saveBalances recs) =
         recs.map (fun r => ({ month := some r.month, balance := r.balance,
                               contribution := r.contribution,
                               note := .text r.note } : NormBalRow))) ∧
    (∀ recs : List HoldingRecord, (hldKeys recs).Nodup →
       (∀ r ∈ recs, pyStrip (pyUpper r.ticker) = r.ticker) →
       loadHoldings (saveHoldings recs) =
         recs.map (fun r => ({ ticker := r.ticker, shares := r.shares,
                               cost_basis := r.cost_basis,
                               note := .text r.note } : NormHldRow))) ∧
    (∀ raw : RawBalRow, raw.balance = none →
       (normalizeBalRow (load_csv_bal raw)).balance = 0) ∧
    (∀ raw : RawBalRow, raw.contribution = none →
       (normalizeBalRow (load_csv_bal raw)).contribution = 0) ∧
    (∀ raw : RawHldRow, raw.shares = none →
       (normalizeHldRow (load_csv_hld raw)).shares = 0) ∧
    (∀ (raw : RawBalRow) (s : String), raw.balance = some (.text s) →
       (normalizeBalRow (load_csv_bal raw)).balance = 0) ∧
    (∀ (raw : RawHldRow) (s : String), raw.shares = some (.text s) →
       (normalizeHldRow (load_csv_hld raw)).shares = 0) := by
  refine ⟨?_, ?_, ?_, ?_, ?_, ?_, ?_⟩
  · intro recs _
    unfold loadBalances saveBalances
    rw [List.map_map]
    rfl
  · intro recs _ h
    unfold loadHoldings saveHoldings
    rw [List.map_map]
    apply List.map_congr_left
    intro r hr
    show normalizeHldRow (load_csv_hld (saveHldRow r)) = _
    rw [hldRowRoundTrip, h r hr]
  · intro raw h
    show toNumericFill0 (raw.balance.getD (.num 0)) = 0
    rw [h]
    rfl
  · intro raw h
    show toNumericFill0 (raw.contribution.getD (.num 0)) = 0
    rw [h]
    rfl
  · intro raw h
    show toNumericFill0 (raw.shares.getD (.num 0)) = 0
    rw [h]
    rfl
  · intro raw s h
    show toNumericFill0 (raw.balance.getD (.num 0)) = 0
    rw [h]
    rfl
  · intro raw s h
    show toNumericFill0 (raw.shares.getD (.num 0)) = 0
    rw [h]
    rfl

theorem claim_C3_witness :
    (loadBalances (saveBalances [⟨⟨2024, 3, 1⟩, 5000, 25, "hi"⟩]) =
       [⟨some ⟨2024, 3, 1⟩, 5000, 25, .text "hi"⟩]) ∧
    (loadHoldings (saveHoldings [⟨"AAPL", 10, 100, "core"⟩]) =
       [⟨"AAPL", 10, 100, .text "core"⟩]) ∧
    ((normalizeBalRow (load_csv_bal
        ⟨some (.date ⟨2024, 3, 1⟩), none, none, none⟩)).balance = 0) ∧
    ((normalizeHldRow (load_csv_hld
        ⟨some (.text "AAPL"), some (.text "oops"), none, none⟩)).shares = 0) :=
  ⟨claim_C3_load_after_save.1 _ (by decide),
   claim_C3_load_after_save.2.1 _ (by decide) (by decide),
   claim_C3_load_after_save.2.2.1 _ rfl,
   claim_C3_load_after_save.2.2.2.2.2.2 _ "oops" rfl⟩

set_option linter.unnecessarySeqFocus false in
theorem syncCheckboxTotal_eq_sum_contrib (quote : String → Option ℚ)
    (holdings : List HoldingRecord) :
    syncCheckboxTotal holdings quote =
      (holdings.map (syncRowContribution quote)).sum := by
  have h : ∀ (l : List HoldingRecord) (acc : ℚ),
      List.foldl (fun total r =>
        if pyStrip r.ticker ≠ "" ∧ r.shares > 0 then
          match quote (pyStrip r.ticker) with
          | some px => total + px * r.shares
          | none => total
        else total) acc l = acc + (l.map (syncRowContribution quote)).sum := by
    intro l
    induction l with
    | nil => intro acc; simp
    | cons r rest ih =>
      intro acc
      rw [List.foldl_cons, ih]
      simp only [List.map_cons, List.sum_cons]
      unfold syncRowContribution
      by_cases hc : pyStrip r.ticker ≠ "" ∧ r.shares > 0
      · rw [if_pos hc, if_pos hc]
        cases hq : quote (pyStrip r.ticker) <;> simp <;> ring
      · rw [if_neg hc, if_neg hc]
        ring
  have h0 := h holdings 0
  rw [zero_add] at h0
  exact h0

theorem syncRowContribution_eq (quote : String → Option ℚ)
    (r : HoldingRecord) (h1 : pyStrip r.ticker = r.ticker) (h2 : r.ticker ≠ "")
    (h3 : 0 ≤ r.shares) :
    syncRowContribution quote r = r.shares * ((quote r.ticker).getD 0) := by
  unfold syncRowContribution
  rw [h1]
  rcases lt_or_eq_of_le h3 with hpos | hzero
  · rw [if_pos ⟨h2, hpos⟩]
    cases hq : quote r.ticker
    · simp
    · simp [mul_comm]
  · rw [if_neg, ← hzero, zero_mul]
    intro hcon
    rw [← hzero] at hcon
    exact lt_irrefl 0 hcon.2

theorem roundHalfEven_intCast (n : ℤ) : roundHalfEven ((n : ℤ) : ℚ) = n := by
  unfold roundHalfEven
  rw [Int.floor_intCast]
  norm_num

theorem round2_eq_intCast (q : ℚ) (n : ℤ) (h : q * 100 = (n : ℚ)) :
    round2 q = (n : ℚ) / 100 := by
  unfold round2
  rw [h, roundHalfEven_intCast]

theorem demoSync_total : syncCheckboxTotal demoHoldings demoQuote = 250 := by
  rw [syncCheckboxTotal_eq_sum_contrib]
  unfold demoHoldings
  rw [List.map_cons, List.map_cons, List.map_nil, List.sum_cons,
    List.sum_cons, List.sum_nil]
  have c1 : syncRowContribution demoQuote
      { ticker := "AAA", shares := 5, cost_basis := 0, note := "" } = 250 := by
    unfold syncRowContribution
    rw [if_pos ⟨by decide, by decide⟩]
    have q1 : demoQuote (pyStrip "AAA") = some 50 := rfl
    rw [q1]
    norm_num
  have c2 : syncRowContribution demoQuote
      { ticker := "BBB", shares := 2, cost_basis := 0, note := "" } = 0 := by
    unfold syncRowContribution
    rw [if_pos ⟨by decide, by decide⟩]
    have q2 : demoQuote (pyStrip "BBB") = none := rfl
    rw [q2]
  rw [c1, c2]
  norm_num

theorem demoTotal_market_value :
    totalMarketValue demoHoldings demoQuote = 250 := by
  unfold totalMarketValue holdingsDisplay demoHoldings
  simp only [List.map_cons, List.map_nil, List.sum_cons, List.sum_nil]
  have d1 : (dispRow demoQuote
      { ticker := "AAA", shares := 5, cost_basis := 0, note := "" }).market_value
      = 250 := by
    unfold dispRow
    dsimp only
    have q1 : demoQuote "AAA" = some 50 := rfl
    rw [q1, Option.getD_some,
      round2_eq_intCast (50 * 5) 25000 (by norm_num)]
    norm_num
  have d2 : (dispRow demoQuote
      { ticker := "BBB", shares := 2, cost_basis := 0, note := "" }).market_value
      = 0 := by
    unfold dispRow
    dsimp only
    have q2 : demoQuote "BBB" = none := rfl
    rw [q2, Option.getD_none,
      round2_eq_intCast (0 * 2) 0 (by norm_num)]
    norm_num
  rw [d1, d2]
  norm_num

/-- C4: with the sync box ticked, the Save/Update Month handler computes the
total as the sum over holdings of shares times the resolved price (an
unavailable price contributing 0) and stores it as the balance of the record
keyed by the first day of the chosen month (the date input defaults to the
first day of the current month); the Holdings-tab button stores its total
under the first day of the current month; and two holdings of 5 shares at
price 50 and 2 shares at an unavailable price yield a total of 250.00. -/
theorem claim_C4_sync_total_and_upsert :
    (∀ (holdings : List HoldingRecord) (quote : String → Option ℚ),
       (∀ r ∈ holdings, pyStrip r.ticker = r.ticker) →
       (∀ r ∈ holdings, r.ticker ≠ "") →
       (∀ r ∈ holdings, 0 ≤ r.shares) →
       syncCheckboxTotal holdings quote =
         (holdings.map (fun r => r.shares * ((quote r.ticker).getD 0))).sum) ∧
    (∀ (balances : List BalanceRecord) (holdings : List HoldingRecord)
       (month : Date) (binput contrib : ℚ) (note : String)
       (quote : String → Option ℚ), holdings ≠ [] →
       (∀ r ∈ saveUpdateMonth balances holdings true month binput contrib
           note quote,
          r.month = month.replaceDayOne →
            r.balance = syncCheckboxTotal holdings quote) ∧
       (∃ r ∈ saveUpdateMonth balances holdings true month binput contrib
           note quote, r.month = month.replaceDayOne)) ∧
    (∀ (balances : List BalanceRecord) (today : Date) (tv : ℚ),
       (∀ r ∈ useTotalButton balances today tv,
          r.month = today.replaceDayOne → r.balance = tv) ∧
       (∃ r ∈ useTotalButton balances today tv,
          r.month = today.replaceDayOne)) ∧
    (syncCheckboxTotal demoHoldings demoQuote = 250 ∧
     totalMarketValue demoHoldings demoQuote = 250 ∧
     ∀ r ∈ useTotalButton [] demoToday 250,
       r.month = demoToday.replaceDayOne ∧ r.balance = 250) := by
  refine ⟨?_, ?_, ?_, ?_⟩
  · intro holdings quote h1 h2 h3
    rw [syncCheckboxTotal_eq_sum_contrib]
    exact congrArg List.sum (List.map_congr_left fun r hr =>
      syncRowContribution_eq quote r (h1 r hr) (h2 r hr) (h3 r hr))
  · intro balances holdings month binput contrib note quote hne
    have hbody : saveUpdateMonth balances holdings true month binput contrib
        note quote =
        upsertBalance balances month.replaceDayOne
          (syncCheckboxTotal holdings quote) contrib note := by
      unfold saveUpdateMonth
      rw [if_pos ⟨rfl, hne⟩]
    constructor
    · intro r hr hm
      rw [hbody] at hr
      rw [upsertBalance_rows_at_key balances month.replaceDayOne _ contrib
        note r hr hm]
    · rw [hbody]
      exact upsertBalance_exists_key _ _ _ _ _
  · intro balances today tv
    exact ⟨useTotalButton_balance_at_key balances today tv,
      useTotalButton_exists_key balances today tv⟩
  · refine ⟨demoSync_total, demoTotal_market_value, ?_⟩
    intro r hr
    have hev : useTotalButton [] demoToday 250 =
        [{ month := demoToday.replaceDayOne, balance := 250,
           contribution := 0, note := "Synced from holdings" }] := by
      unfold useTotalButton
      rw [if_neg (by decide)]
      rw [List.nil_append, List.mergeSort_singleton]
    rw [hev, List.mem_singleton] at hr
    rw [hr]
    exact ⟨rfl, rfl⟩

theorem claim_C4_witness :
    (syncCheckboxTotal demoHoldings demoQuote =
       (demoHoldings.map
          (fun r => r.shares * ((demoQuote r.ticker).getD 0))).sum) ∧
    (∀ r ∈ saveUpdateMonth [] demoHoldings true demoToday 0 0 "" demoQuote,
       r.month = demoToday.replaceDayOne →
         r.balance = syncCheckboxTotal demoHoldings demoQuote) :=
  ⟨claim_C4_sync_total_and_upsert.1 demoHoldings demoQuote (by decide)
     (by decide) (by decide),
   (claim_C4_sync_total_and_upsert.2.1 [] demoHoldings demoToday 0 0 ""
     demoQuote (by decide)).1⟩

theorem claim_C10_witness :
    (⟨⟨2026, 10, 1⟩, 250, 7, "keep"⟩ : BalanceRecord) ∈
      useTotalButton
        [⟨⟨2026, 9, 1⟩, 3, 4, "other"⟩, ⟨⟨2026, 10, 1⟩, 5, 7, "keep"⟩]
        ⟨2026, 10, 12⟩ 250 :=
  (claim_C10_sync_button_frame
      [⟨⟨2026, 9, 1⟩, 3, 4, "other"⟩, ⟨⟨2026, 10, 1⟩, 5, 7, "keep"⟩]
      ⟨2026, 10, 12⟩ 250 (by decide)).2.2.1
    ⟨⟨2026, 10, 1⟩, 5, 7, "keep"⟩ (by decide) (by decide)

theorem infoYield_eq_none (i : InfoDict)
    (h1 : ∀ q : ℚ, i.regularMarketPrice ≠ some (.num q))
    (h2 : ∀ q : ℚ, i.currentPrice ≠ some (.num q))
    (h3 : ∀ q : ℚ, i.previousClose ≠ some (.num q)) : infoYield i = none := by
  obtain ⟨r, c, p⟩ := i
  rcases r with _ | (q1 | _ | _) <;> rcases c with _ | (q2 | _ | _) <;>
    rcases p with _ | (q3 | _ | _) <;>
      first
        | rfl
        | exact absurd rfl (h1 _)
        | exact absurd rfl (h2 _)
        | exact absurd rfl (h3 _)

theorem infoYield_firstNonNull (i : InfoDict) :
    infoYield i =
      match firstInfoNonNull i with
      | some (.num q) => some q
      | _ => none := by
  obtain ⟨r, c, p⟩ := i
  rcases r with _ | (q1 | _ | _) <;> rcases c with _ | (q2 | _ | _) <;>
    rcases p with _ | (q3 | _ | _) <;> rfl

/-- C2: `fetch_quote` is a total function into `Option` — every provider
exception is absorbed — and whenever no source yields a usable value (the
fast-info step falls through, and neither the history window nor the info
payload offers a float-convertible price) the result is the unavailable
sentinel `none`; likewise when the provider module is missing or the
`yf.Ticker` construction itself raises. -/
theorem claim_C2_resolve_price_never_raises :
    fetch_quote none = none ∧
    (∀ p : Provider, p.tickerRaises = true → fetch_quote (some p) = none) ∧
    (∀ p : Provider, noUsableQuote p → fetch_quote (some p) = none) := by
  refine ⟨rfl, ?_, ?_⟩
  · intro p htr
    simp [fetch_quote, htr]
  · intro p h
    obtain ⟨h1, h2, h3⟩ := h
    cases htr : p.tickerRaises with
    | true => simp [fetch_quote, htr]
    | false =>
      rcases h2 with hexn | ⟨closes, hok, hlast⟩
      · simp [fetch_quote, htr, h1, hexn]
      · by_cases hemp : closes.isEmpty
        · rcases h3 with hiexn | ⟨i, hiok, hr, hc, hp⟩
          · simp [fetch_quote, htr, h1, hok, hemp, hiexn]
          · have hinfo : infoYield i = none := infoYield_eq_none i hr hc hp
            simp [fetch_quote, htr, h1, hok, hemp, hiok, hinfo]
        · cases hlq : closes.getLast? with
          | none => simp [fetch_quote, htr, h1, hok, hemp, hlq]
          | some v =>
            cases v with
            | num q => exact absurd hlq (hlast q)
            | null => simp [fetch_quote, htr, h1, hok, hemp, hlq, pyFloat]
            | bad => simp [fetch_quote, htr, h1, hok, hemp, hlq, pyFloat]

theorem claim_C2_witness :
    fetch_quote (some ⟨false, .exn, .ok [],
      .ok ⟨some .null, none, some .bad⟩, .exn⟩) = none :=
  claim_C2_resolve_price_never_raises.2.2 _
    ⟨rfl, Or.inr ⟨[], rfl, by simp⟩,
     Or.inr ⟨_, rfl, by simp, by simp, by simp⟩⟩

/-- C6 as stated fails: with the fast-info attribute absent, a history call
that raises and an info payload carrying `regularMarketPrice = 100`, the
claim's fallback reading demands the price 100, but the code's outer
`except` returns `None` as soon as the history call raises, never consulting
the info payload. -/
theorem claim_C6_counterexample : ¬ claimC6Statement := by
  intro h
  have h3 := (h cexProvider rfl).2.2 rfl (Or.inl rfl)
    { regularMarketPrice := some (.num 100), currentPrice := none,
      previousClose := none } 100 rfl rfl
  have hnone : fetch_quote (some cexProvider) = none := rfl
  rw [hnone] at h3
  exact Option.noConfusion h3

/-- C6 amended: the fast/summary source wins when it yields a price; when it
yields nothing the one-day history window is consulted, a price being the
float of its last close; the info payload is consulted only when the history
call returned an empty window without raising, and then the first key
present with a non-null value decides the result (its float if convertible,
unavailable otherwise).  An exception in the history or info call aborts the
chain with the unavailable sentinel instead of falling through. -/
theorem claim_C6_amended_fallback_order (p : Provider)
    (htr : p.tickerRaises = false) :
    (∀ q : ℚ, fastYield p.fastInfo = some q → fetch_quote (some p) = some q) ∧
    (fastYield p.fastInfo = none → p.history = .exn →
       fetch_quote (some p) = none) ∧
    (fastYield p.fastInfo = none →
       ∀ (closes : List PyVal) (q : ℚ), p.history = .ok closes →
         closes.getLast? = some (.num q) → fetch_quote (some p) = some q) ∧
    (fastYield p.fastInfo = none →
       ∀ (closes : List PyVal) (v : PyVal), p.history = .ok closes →
         closes.getLast? = some v → pyFloat v = .exn →
         fetch_quote (some p) = none) ∧
    (fastYield p.fastInfo = none → p.history = .ok [] → p.info = .exn →
       fetch_quote (some p) = none) ∧
    (fastYield p.fastInfo = none → p.history = .ok [] →
       ∀ i : InfoDict, p.info = .ok i →
         (∀ q : ℚ, firstInfoNonNull i = some (.num q) →
            fetch_quote (some p) = some q) ∧
         (firstInfoNonNull i = some .bad → fetch_quote (some p) = none) ∧
         (firstInfoNonNull i = none → fetch_quote (some p) = none)) := by
  refine ⟨?_, ?_, ?_, ?_, ?_, ?_⟩
  · intro q hq
    simp [fetch_quote, htr, hq]
  · intro h1 h2
    simp [fetch_quote, htr, h1, h2]
  · intro h1 closes q hok hlq
    cases closes with
    | nil => simp at hlq
    | cons a as =>
      simp [fetch_quote, htr, h1, hok, hlq, pyFloat]
  · intro h1 closes v hok hlq hfl
    cases closes with
    | nil => simp at hlq
    | cons a as =>
      simp [fetch_quote, htr, h1, hok, hlq, hfl]
  · intro h1 h2 h3
    simp [fetch_quote, htr, h1, h2, h3]
  · intro h1 h2 i hiok
    have hbase : fetch_quote (some p) = infoYield i := by
      simp [fetch_quote, htr, h1, h2, hiok]
    refine ⟨?_, ?_, ?_⟩
    · intro q hfirst
      rw [hbase, infoYield_firstNonNull, hfirst]
    · intro hfirst
      rw [hbase, infoYield_firstNonNull, hfirst]
    · intro hfirst
      rw [hbase, infoYield_firstNonNull, hfirst]

theorem claim_C6_amended_witness :
    (fetch_quote (some ⟨false,
       .ok (some ⟨.ok (some (.num 42)), false, none, none⟩),
       .ok [], .ok ⟨none, none, none⟩, .exn⟩) = some 42) ∧
    (fetch_quote (some ⟨false, .ok none, .ok [.num 7, .num 9],
       .ok ⟨none, none, none⟩, .exn⟩) = some 9) ∧
    (fetch_quote (some ⟨false, .ok none, .ok [],
       .ok ⟨some .null, some (.num 3), none⟩, .exn⟩) = some 3) :=
  ⟨(claim_C6_amended_fallback_order _ rfl).1 42 rfl,
   (claim_C6_amended_fallback_order
       ⟨false, .ok none, .ok [.num 7, .num 9], .ok ⟨none, none, none⟩,
        .exn⟩ rfl).2.2.1 rfl [.num 7, .num 9] 9 rfl rfl,
   ((claim_C6_amended_fallback_order
       ⟨false, .ok none, .ok [], .ok ⟨some .null, some (.num 3), none⟩,
        .exn⟩ rfl).2.2.2.2.2 rfl rfl
       ⟨some .null, some (.num 3), none⟩ rfl).1 3 rfl⟩

theorem roundHalfEven_127_10 : roundHalfEven (127/10) = 13 := by
  have hfl : ⌊(127/10 : ℚ)⌋ = 12 := by norm_num
  unfold roundHalfEven
  rw [hfl]
  norm_num

theorem round2_127_1000 : round2 (127/1000 * 1) = 13/100 := by
  unfold round2
  have h : (127/1000 : ℚ) * 1 * 100 = 127/10 := by norm_num
  rw [h, roundHalfEven_127_10]
  norm_num

/-- C7 as stated fails: the displayed columns are rounded to two decimals, so
a holding of 1 share priced 0.127 shows a market value of 0.13, not the exact
product 0.127. -/
theorem claim_C7_counterexample : ¬ claimC7Statement := by
  intro h
  have hc := (h (fun _ => some (127/1000))
    ⟨"AAA", 1, 0, ""⟩ (127/1000) rfl).1
  have hval : (dispRow (fun _ => some (127/1000))
      (⟨"AAA", 1, 0, ""⟩ : HoldingRecord)).market_value = 13/100 := by
    unfold dispRow
    dsimp only
    rw [Option.getD_some]
    exact round2_127_1000
  rw [hval] at hc
  norm_num at hc

theorem dispRow_derived_columns (quote : String → Option ℚ)
    (r : HoldingRecord) (q : ℚ) (hq : quote r.ticker = some q) :
    (dispRow quote r).market_value = round2 (q * r.shares) ∧
    (dispRow quote r).unrealized_pnl = round2 ((q - r.cost_basis) * r.shares) := by
  unfold dispRow
  dsimp only
  rw [hq, Option.getD_some]
  exact ⟨rfl, rfl⟩

/-- C7 amended: with an available resolved price the derived columns are the
products rounded to two decimal places,
`market_value = round2(last_price * shares)` and
`unrealized_pnl = round2((last_price - cost_basis) * shares)`; in particular
shares 10, cost basis 100 and price 120 display exactly 1200.00 and 200.00. -/
theorem claim_C7_amended_display_columns :
    (∀ (quote : String → Option ℚ) (r : HoldingRecord) (q : ℚ),
       quote r.ticker = some q →
       (dispRow quote r).market_value = round2 (q * r.shares) ∧
       (dispRow quote r).unrealized_pnl =
         round2 ((q - r.cost_basis) * r.shares)) ∧
    (∀ (quote : String → Option ℚ) (r : HoldingRecord),
       quote r.ticker = some 120 → r.shares = 10 → r.cost_basis = 100 →
       (dispRow quote r).market_value = 1200 ∧
       (dispRow quote r).unrealized_pnl = 200) := by
  refine ⟨dispRow_derived_columns, ?_⟩
  intro quote r hq hs hc
  obtain ⟨h1, h2⟩ := dispRow_derived_columns quote r 120 hq
  rw [h1, h2, hs, hc]
  constructor
  · rw [round2_eq_intCast (120 * 10) 120000 (by norm_num)]
    norm_num
  · rw [round2_eq_intCast ((120 - 100) * 10) 20000 (by norm_num)]
    norm_num

theorem claim_C7_witness :
    (dispRow (fun _ => some 120)
       (⟨"NVDA", 10, 100, ""⟩ : HoldingRecord)).market_value = 1200 ∧
    (dispRow (fun _ => some 120)
       (⟨"NVDA", 10, 100, ""⟩ : HoldingRecord)).unrealized_pnl = 200 :=
  claim_C7_amended_display_columns.2 _ _ rfl rfl rfl

/-- C8: `fetch_dividends` is a total function into a list of (date, amount)
pairs: a missing provider module, a raising `yf.Ticker` or `t.dividends`
access, a `None` series and an empty series all give the empty sequence, and
a non-empty series is returned as its pairs in order. -/
theorem claim_C8_resolve_dividends_never_raises :
    fetch_dividends none = [] ∧
    (∀ p : Provider, p.tickerRaises = true → fetch_dividends (some p) = []) ∧
    (∀ p : Provider, p.tickerRaises = false → p.dividends = .exn →
       fetch_dividends (some p) = []) ∧
    (∀ p : Provider, p.tickerRaises = false → p.dividends = .ok none →
       fetch_dividends (some p) = []) ∧
    (∀ (p : Provider) (l : List (Int × ℚ)), p.tickerRaises = false →
       p.dividends = .ok (some l) → fetch_dividends (some p) = l) := by
  refine ⟨rfl, ?_, ?_, ?_, ?_⟩
  · intro p htr
    simp [fetch_dividends, htr]
  · intro p htr hd
    simp [fetch_dividends, htr, hd]
  · intro p htr hd
    simp [fetch_dividends, htr, hd]
  · intro p l htr hd
    cases l with
    | nil => simp [fetch_dividends, htr, hd]
    | cons a as => simp [fetch_dividends, htr, hd]

theorem claim_C8_witness :
    fetch_dividends (some ⟨false, .ok none, .ok [], .ok ⟨none, none, none⟩,
      .ok (some [((20240315 : Int), 1/4)])⟩) = [((20240315 : Int), 1/4)] :=
  claim_C8_resolve_dividends_never_raises.2.2.2.2 _ _ rfl rfl

end PortfolioApp
